import Mathlib

/-!
Verification of the deck-list auditor (`etc/parsing-scripts/audit_decks.py`).

The script is shallowly embedded here.  A file's text is modelled as the list
of its lines (`readlines` output), with every line represented as a `List Char`
without its trailing newline: every use of a line in the source first applies
`str.strip()`, which removes the newline together with any other surrounding
whitespace, so nothing is lost by this representation.  An empty file yields
the empty list of lines, exactly as `readlines` does.

Python-specific behaviour is modelled explicitly:
* `str.strip()` becomes `strip`, removing the ASCII whitespace characters;
* `str.lower()` becomes `lowerStr` (`Char.toLower`, ASCII case folding);
* the regular expressions `-\d+$` and `(\w)\((\d+)\)$` of
  `check_filename_format` become `endsWithHyphenDigits` and `parenMatch`;
  `\d` and `\w` are modelled over their ASCII meaning (`Char.isDigit`,
  alphanumeric-or-underscore);
* truthiness of the `has_headers` value (which is `None` for an empty file,
  a genuine `bool` otherwise) becomes `truthy : Option Bool → Bool`;
* `sorted` on paths becomes the stable insertion sort `sortB` under the
  lexicographic code-point order `strLe`, which is how Python compares the
  path strings of entries of a single parent directory;
* `pathlib.Path.stem` becomes `pathStem` and the glob pattern `*.txt`
  becomes the suffix test `endsTxt`.
-/

abbrev Str := List Char

/-- ASCII whitespace, as removed by Python `str.strip()`. -/
def isSpaceChar (c : Char) : Bool :=
  c = ' ' || c = '\t' || c = '\n' || c = '\x0d' || c = '\x0b' || c = '\x0c'

/-- Python `str.strip()`: drop leading and trailing whitespace. -/
def strip (s : Str) : Str :=
  ((s.dropWhile isSpaceChar).reverse.dropWhile isSpaceChar).reverse

/-- Python `str.lower()` (ASCII case folding). -/
def lowerStr (s : Str) : Str := s.map Char.toLower

/-- Python `str.startswith(needle)`: `isPre needle hay`. -/
def isPre : Str → Str → Bool
  | [], _ => true
  | _ :: _, [] => false
  | a :: as, b :: bs => a = b && isPre as bs

/-- Python `needle in hay` (substring containment): `strContains needle hay`. -/
def strContains (needle : Str) : Str → Bool
  | [] => needle.isEmpty
  | c :: t => isPre needle (c :: t) || strContains needle t

/-- Python `str(n)` for a natural number. -/
def natStr (n : Nat) : Str := (Nat.repr n).toList

/-- Python `range(a, b)` as a list of natural numbers. -/
def pyRange (a b : Nat) : List Nat := List.range' a (b - a)

/-- A word character in the sense of the regex class `\w` (ASCII). -/
def isWordChar (c : Char) : Bool := c.isAlphanum || c = '_'

/-- The two possible findings of `check_filename_format`, each carrying the
suggested corrected filename that the source interpolates into its message
(`"Uses hyphen format: should be '<sugg>'"` resp.
`"Missing space before parens: should be '<sugg>'"`). -/
inductive FilenameIssue where
  | hyphenForm (sugg : Str)
  | missingSpace (sugg : Str)
  deriving DecidableEq

/-- Python `filename.replace(Char.ofNat 45, ...)`: every hyphen is replaced by
the two characters space and opening parenthesis, exactly as
`filename.replace("-", " (")` does. -/
def replaceHyphens : Str → Str
  | [] => []
  | c :: t => (if c = '-' then [' ', '('] else [c]) ++ replaceHyphens t

/-- Whether the regex `-\d+$` matches the string: equivalently, the string
ends in at least one digit and the maximal run of trailing digits is
immediately preceded by a hyphen. -/
def endsWithHyphenDigits (s : Str) : Bool :=
  let r := s.reverse
  let ds := r.takeWhile Char.isDigit
  !ds.isEmpty && ((r.drop ds.length).headD ' ' = '-')

/-- Matching of the regex `(\w)\((\d+)\)$`.  On success it returns the pair of
`filename[:match.start(1)+1]` (the part of the stem up to and including the
word character, group 1) and the digits (group 2). -/
def parenMatch (s : Str) : Option (Str × Str) :=
  match s.reverse with
  | [] => none
  | c0 :: r1 =>
    if c0 = ')' then
      let ds := r1.takeWhile Char.isDigit
      if ds.isEmpty then none
      else
        match r1.drop ds.length with
        | c1 :: w :: r4 =>
          if c1 = '(' ∧ isWordChar w = true then some ((w :: r4).reverse, ds.reverse)
          else none
        | _ => none
    else none

/-- `check_filename_format` of the source: first the hyphen-form test
(regex `-\d+$`, suggestion `filename.replace("-", " (") + ")"`), then the
missing-space test (regex `(\w)\((\d+)\)$`, suggestion
`filename[:match.start(1)+1] + " (" + match.group(2) + ")"`). -/
def check_filename_format (stem0 : Str) : Option FilenameIssue :=
  if endsWithHyphenDigits stem0 then
    some (.hyphenForm (replaceHyphens stem0 ++ [')']))
  else
    match parenMatch stem0 with
    | some (preW, ds) => some (.missingSpace (preW ++ ' ' :: '(' :: (ds ++ [')'])))
    | none => none

/-- The value stored in the `name_issue` component of `check_deck_content`'s
result: the string `"Empty file"` for an empty file, or the mismatch message
built from the declared deck name and the expected stem. -/
inductive NameIssue where
  | emptyFile
  | mismatch (deckName expected : Str)
  deriving DecidableEq

/-- An ASCII apostrophe, as interpolated around names in the messages. -/
def apos : Char := Char.ofNat 39

/-- The message string the source stores for a name issue:
`"Empty file"`, or `"Deck name '<d>' doesn't match filename '<e>'"`. -/
def NameIssue.render : NameIssue → Str
  | .emptyFile => "Empty file".toList
  | .mismatch d e =>
      "Deck name ".toList ++ apos :: (d ++ apos :: " doesn".toList
        ++ apos :: ("t match filename ".toList ++ apos :: (e ++ [apos])))

/-- The triple returned by `check_deck_content`: the name issue (if any), the
`has_headers` value (`None`, i.e. `none`, for an empty file) and the list of
flagged unknown-card entries as (1-based line number, stripped text) pairs. -/
structure ContentResult where
  nameIssue : Option NameIssue
  hasHeaders : Option Bool
  unknowns : List (Nat × Str)
  deriving DecidableEq

/-- Whether any line of the file, stripped, starts with `//`. -/
def hasHeaderLine (lines : List Str) : Bool :=
  lines.any (fun l => isPre "//".toList (strip l))

/-- The filter of the inner loop of the unknown-card scan: the stripped line
is non-empty, is not itself a `//` header, and its lowercased text contains
neither `random` nor `rare`. -/
def flagUnknown (card : Str) : Bool :=
  !card.isEmpty && !isPre "//".toList card
    && !strContains "random".toList (lowerStr card)
    && !strContains "rare".toList (lowerStr card)

/-- The inner loop `for j in range(i, min(i+10, len(lines)))` of the
unknown-card scan, for the header whose 1-based line number is `i`.  For the
0-based index `j` the source records the pair `(i+j-i+1, card)`, i.e.
`(j+1, card)`. -/
def unknownWindow (lines : List Str) (i : Nat) : List (Nat × Str) :=
  (pyRange i (min (i + 10) lines.length)).filterMap (fun j =>
    let card := strip (lines.getD j [])
    if flagUnknown card then some (j + 1, card) else none)

/-- The unknown-card scan of `check_deck_content`: for every line whose
stripped form starts with `//Unknown` (at 0-based index `k`, i.e. 1-based
line number `k+1`) collect the flagged entries of its 10-line window. -/
def findUnknowns (lines : List Str) : List (Nat × Str) :=
  ((pyRange 0 lines.length).map (fun k =>
    if isPre "//Unknown".toList (strip (lines.getD k [])) then
      unknownWindow lines (k + 1)
    else [])).flatten

/-- `check_deck_content` of the source.  For an empty file it returns the
triple `("Empty file", None, [])`; otherwise the deck name is the stripped
first line, compared against the expected stem. -/
def check_deck_content (stem0 : Str) (lines : List Str) : ContentResult :=
  match lines with
  | [] => ⟨some .emptyFile, none, []⟩
  | first :: rest =>
    let deck_name := strip first
    ⟨if deck_name ≠ stem0 then some (.mismatch deck_name stem0) else none,
     some (hasHeaderLine (first :: rest)),
     findUnknowns (first :: rest)⟩

/-- Python truthiness of the `has_headers` value: `None` and `False` are
falsy, `True` is truthy. -/
def truthy : Option Bool → Bool
  | none => false
  | some b => b

/-- A deck file: its filename (with extension) and its lines. -/
structure DeckFile where
  name : Str
  lines : List Str
  deriving DecidableEq

/-- A set subdirectory: its name and the directory entries it contains.
Entries of the root directory that are not directories are skipped by the
source's `is_dir()` guard and are not part of the model. -/
structure SetDir where
  name : Str
  files : List DeckFile
  deriving DecidableEq

/-- The five counters of the `stats` dictionary. -/
structure Stats where
  total_files : Nat
  formatted : Nat
  raw : Nat
  bad_naming : Nat
  unknown_cards : Nat
  deriving DecidableEq

/-- The three issue lists of the `issues` dictionary, in the fixed key order
used by the source (`filename`, `deck_name`, `unknown`). -/
structure Issues where
  filename : List Str
  deck_name : List Str
  unknown : List Str
  deriving DecidableEq

/-- The whole mutable state of one run. -/
structure AuditState where
  stats : Stats
  issues : Issues
  deriving DecidableEq

def initState : AuditState := ⟨⟨0, 0, 0, 0, 0⟩, ⟨[], [], []⟩⟩

/-- `pathlib.Path.stem`: the filename without its last suffix.  Mirrors the
pathlib rule `i = name.rfind(Char.ofNat 46); name[:i] if 0 < i < len(name)-1
else name`. -/
def pathStem (s : Str) : Str :=
  match s.reverse.findIdx? (fun c => c = '.') with
  | none => s
  | some k =>
    let i := s.length - 1 - k
    if 0 < i ∧ i < s.length - 1 then s.take i else s

/-- Python `str(a) <= str(b)` on strings: lexicographic comparison of the
code points, which is how `sorted` orders the path entries of one parent
directory. -/
def strLe : Str → Str → Bool
  | [], _ => true
  | _ :: _, [] => false
  | a :: as, b :: bs =>
    if a.toNat < b.toNat then true
    else if b.toNat < a.toNat then false
    else strLe as bs

/-- One step of the stable insertion sort modelling Python `sorted`. -/
def insertB (le : α → α → Bool) (a : α) : List α → List α
  | [] => [a]
  | b :: l => if le a b then a :: b :: l else b :: insertB le a l

/-- Stable insertion sort modelling Python `sorted`. -/
def sortB (le : α → α → Bool) : List α → List α
  | [] => []
  | a :: l => insertB le a (sortB le l)

/-- Matching of the glob pattern `*.txt` against a filename. -/
def endsTxt (s : Str) : Bool := isPre ".txt".toList.reverse s.reverse

/-- The issue entry `f"{set_name}/{filepath.name}: {msg}"`. -/
def fileEntry (set_name fname msg : Str) : Str :=
  set_name ++ '/' :: (fname ++ ':' :: ' ' :: msg)

/-- The issue entry `f"{set_name}/{filepath.name}:{line_num}: {card}"`. -/
def unknownEntry (set_name fname : Str) (line_num : Nat) (card : Str) : Str :=
  set_name ++ '/' :: (fname ++ ':' :: (natStr line_num ++ ':' :: ' ' :: card))

/-- The message string of a `FilenameIssue`, as appended by
`audit_directory` (the part after `"should be "` is quoted in the source). -/
def FilenameIssue.render : FilenameIssue → Str
  | .hyphenForm sugg => "Uses hyphen format: should be ".toList ++ apos :: (sugg ++ [apos])
  | .missingSpace sugg => "Missing space before parens: should be ".toList ++ apos :: (sugg ++ [apos])

/-- The body of the `for filepath in txt_files` loop of `audit_directory`:
count the file, run the filename check, run the content check, classify
formatted/raw by the truthiness of `has_headers`, and accumulate the
unknown-card entries.  The source guards the unknown-card accumulation with
`if unknown_cards:`, which is equivalent to the unguarded update since an
empty list contributes zero to the count and nothing to the list. -/
def processFile (set_name : Str) (st : AuditState) (f : DeckFile) : AuditState :=
  let st1 : AuditState :=
    { st with stats := { st.stats with total_files := st.stats.total_files + 1 } }
  let st2 : AuditState :=
    match check_filename_format (pathStem f.name) with
    | some iss =>
        { st1 with
          stats := { st1.stats with bad_naming := st1.stats.bad_naming + 1 },
          issues := { st1.issues with
            filename := st1.issues.filename ++ [fileEntry set_name f.name iss.render] } }
    | none => st1
  let r := check_deck_content (pathStem f.name) f.lines
  let st3 : AuditState :=
    match r.nameIssue with
    | some ni =>
        { st2 with issues := { st2.issues with
            deck_name := st2.issues.deck_name ++ [fileEntry set_name f.name ni.render] } }
    | none => st2
  let st4 : AuditState :=
    if truthy r.hasHeaders then
      { st3 with stats := { st3.stats with formatted := st3.stats.formatted + 1 } }
    else
      { st3 with stats := { st3.stats with raw := st3.stats.raw + 1 } }
  { st4 with
    stats := { st4.stats with
      unknown_cards := st4.stats.unknown_cards + r.unknowns.length },
    issues := { st4.issues with
      unknown := st4.issues.unknown
        ++ r.unknowns.map (fun p => unknownEntry set_name f.name p.1 p.2) } }

/-- The `.txt` files of a set subdirectory, in the order produced by
`sorted(dir_path.glob("*.txt"))`. -/
def txtSorted (d : SetDir) : List DeckFile :=
  sortB (fun f1 f2 => strLe f1.name f2.name) (d.files.filter (fun f => endsTxt f.name))

/-- `audit_directory` of the source, processing one set subdirectory. -/
def audit_directory (st : AuditState) (d : SetDir) : AuditState :=
  (txtSorted d).foldl (processFile d.name) st

/-- The name of the excluded tooling subdirectory. -/
def psName : Str := "parsing-scripts".toList

/-- The guard `set_dir.name not in [...]` of `main`. -/
def keepDir (d : SetDir) : Bool := !(d.name == psName)

/-- The set subdirectories in the order `main` scans them:
`sorted(ETC_DIR.iterdir())`, keeping directories whose name is not the
excluded tooling name. -/
def scannedDirs (dirs : List SetDir) : List SetDir :=
  (sortB (fun d1 d2 => strLe d1.name d2.name) dirs).filter keepDir

/-- The scanning phase of `main`: fold `audit_directory` over the scanned
set subdirectories, starting from the initial counters and empty lists. -/
def main_audit (dirs : List SetDir) : AuditState :=
  (scannedDirs dirs).foldl audit_directory initState

/-- The five statistics lines of the report, in print order. -/
def totalLine (n : Nat) : Str := "Total files: ".toList ++ natStr n

def formattedLine (n : Nat) : Str := "Formatted: ".toList ++ natStr n

def rawLine (n : Nat) : Str := "Raw: ".toList ++ natStr n

def badLine (n : Nat) : Str := "Bad naming: ".toList ++ natStr n

def unknownLine (n : Nat) : Str := "Unknown cards: ".toList ++ natStr n

def auditHeader : Str := "=== DECK LIST AUDIT ===".toList

def fnTitle : Str := "=== FILENAME FORMAT ISSUES ===".toList

def dnTitle : Str := "=== DECK NAME MISMATCHES ===".toList

def unTitle : Str := "=== UNKNOWN CARD ENTRIES ===".toList

def okLine : Str := "✓ No issues found!".toList

/-- An issue line as printed, `f"  {issue}"`. -/
def indentLine (s : Str) : Str := ' ' :: ' ' :: s

/-- One issue-category block of the report: nothing when the category is
empty, otherwise its title, its indented entries, and the blank line of the
trailing `print()`. -/
def issueBlock (title : Str) (items : List Str) : List Str :=
  if items.isEmpty then [] else title :: (items.map indentLine ++ [[]])

/-- The fixed head of the report: the header line (whose trailing `\n` in
`print("=== DECK LIST AUDIT ===\n")` produces a blank line), the five
statistics lines, and the blank line of `print()`. -/
def reportHead (s : Stats) : List Str :=
  [auditHeader, [], totalLine s.total_files, formattedLine s.formatted,
   rawLine s.raw, badLine s.bad_naming, unknownLine s.unknown_cards, []]

/-- The final confirmation: `if not any(issues.values()): print("✓ ...")`. -/
def confirmPart (i : Issues) : List Str :=
  if i.filename.isEmpty && i.deck_name.isEmpty && i.unknown.isEmpty then [okLine] else []

/-- The lines printed by `main` to standard output, in order. -/
def report (s : Stats) (i : Issues) : List Str :=
  reportHead s
    ++ issueBlock fnTitle i.filename
    ++ issueBlock dnTitle i.deck_name
    ++ issueBlock unTitle i.unknown
    ++ confirmPart i

/-- The entry appended to `issues["filename"]` for one file (empty when the
filename check finds nothing). -/
def filenameAdd (set_name : Str) (f : DeckFile) : List Str :=
  match check_filename_format (pathStem f.name) with
  | some iss => [fileEntry set_name f.name iss.render]
  | none => []

/-- The entry appended to `issues["deck_name"]` for one file (empty when the
content check reports no name issue). -/
def deckNameAdd (set_name : Str) (f : DeckFile) : List Str :=
  match (check_deck_content (pathStem f.name) f.lines).nameIssue with
  | some ni => [fileEntry set_name f.name ni.render]
  | none => []

/-- The entries appended to `issues["unknown"]` for one file. -/
def unknownAdd (set_name : Str) (f : DeckFile) : List Str :=
  (check_deck_content (pathStem f.name) f.lines).unknowns.map
    (fun p => unknownEntry set_name f.name p.1 p.2)

lemma processFile_total (set_name : Str) (st : AuditState) (f : DeckFile) :
    (processFile set_name st f).stats.total_files = st.stats.total_files + 1 := by
  cases hc : check_filename_format (pathStem f.name) <;>
    cases hn : (check_deck_content (pathStem f.name) f.lines).nameIssue <;>
    cases ht : truthy (check_deck_content (pathStem f.name) f.lines).hasHeaders <;>
    simp [processFile, hc, hn, ht]

lemma processFile_formatted (set_name : Str) (st : AuditState) (f : DeckFile) :
    (processFile set_name st f).stats.formatted
      = st.stats.formatted
        + (if truthy (check_deck_content (pathStem f.name) f.lines).hasHeaders then 1 else 0) := by
  cases hc : check_filename_format (pathStem f.name) <;>
    cases hn : (check_deck_content (pathStem f.name) f.lines).nameIssue <;>
    cases ht : truthy (check_deck_content (pathStem f.name) f.lines).hasHeaders <;>
    simp [processFile, hc, hn, ht]

lemma processFile_raw (set_name : Str) (st : AuditState) (f : DeckFile) :
    (processFile set_name st f).stats.raw
      = st.stats.raw
        + (if truthy (check_deck_content (pathStem f.name) f.lines).hasHeaders then 0 else 1) := by
  cases hc : check_filename_format (pathStem f.name) <;>
    cases hn : (check_deck_content (pathStem f.name) f.lines).nameIssue <;>
    cases ht : truthy (check_deck_content (pathStem f.name) f.lines).hasHeaders <;>
    simp [processFile, hc, hn, ht]

lemma processFile_filename (set_name : Str) (st : AuditState) (f : DeckFile) :
    (processFile set_name st f).issues.filename
      = st.issues.filename ++ filenameAdd set_name f := by
  cases hc : check_filename_format (pathStem f.name) <;>
    cases hn : (check_deck_content (pathStem f.name) f.lines).nameIssue <;>
    cases ht : truthy (check_deck_content (pathStem f.name) f.lines).hasHeaders <;>
    simp [processFile, filenameAdd, hc, hn, ht]

lemma processFile_deck_name (set_name : Str) (st : AuditState) (f : DeckFile) :
    (processFile set_name st f).issues.deck_name
      = st.issues.deck_name ++ deckNameAdd set_name f := by
  cases hc : check_filename_format (pathStem f.name) <;>
    cases hn : (check_deck_content (pathStem f.name) f.lines).nameIssue <;>
    cases ht : truthy (check_deck_content (pathStem f.name) f.lines).hasHeaders <;>
    simp [processFile, deckNameAdd, hc, hn, ht]

lemma processFile_unknown (set_name : Str) (st : AuditState) (f : DeckFile) :
    (processFile set_name st f).issues.unknown
      = st.issues.unknown ++ unknownAdd set_name f := by
  cases hc : check_filename_format (pathStem f.name) <;>
    cases hn : (check_deck_content (pathStem f.name) f.lines).nameIssue <;>
    cases ht : truthy (check_deck_content (pathStem f.name) f.lines).hasHeaders <;>
    simp [processFile, unknownAdd, hc, hn, ht]

/-- The `has_headers` value is truthy exactly when some stripped line starts
with `//`: `None` (empty file) and `False` are both falsy. -/
lemma truthy_hasHeaders (stem0 : Str) (lines : List Str) :
    truthy (check_deck_content stem0 lines).hasHeaders = hasHeaderLine lines := by
  cases lines with
  | nil => simp [check_deck_content, truthy, hasHeaderLine]
  | cons a t => simp [check_deck_content, truthy]

/-- C5.  Processing a file increments exactly one of the two counters
`formatted` and `raw`: `formatted` when some line, stripped, starts with
`//`, and `raw` otherwise; and the `has_headers` flag is true exactly when
such a line exists. -/
theorem spec_c5 (set_name : Str) (st : AuditState) (f : DeckFile) :
    (processFile set_name st f).stats.formatted
        = st.stats.formatted + (if hasHeaderLine f.lines then 1 else 0)
  ∧ (processFile set_name st f).stats.raw
        = st.stats.raw + (if hasHeaderLine f.lines then 0 else 1)
  ∧ (hasHeaderLine f.lines = true ↔ ∃ l ∈ f.lines, isPre "//".toList (strip l) = true) := by
  refine ⟨?_, ?_, ?_⟩
  · rw [processFile_formatted, truthy_hasHeaders]
  · rw [processFile_raw, truthy_hasHeaders]
  · simp [hasHeaderLine, List.any_eq_true]

lemma fr_inv_processFile (set_name : Str) (st : AuditState) (f : DeckFile)
    (h : st.stats.formatted + st.stats.raw = st.stats.total_files) :
    (processFile set_name st f).stats.formatted + (processFile set_name st f).stats.raw
      = (processFile set_name st f).stats.total_files := by
  rw [processFile_formatted, processFile_raw, processFile_total]
  by_cases ht : truthy (check_deck_content (pathStem f.name) f.lines).hasHeaders <;>
    simp [ht] <;> omega

lemma fr_inv_foldFiles (set_name : Str) (l : List DeckFile) :
    ∀ st : AuditState, st.stats.formatted + st.stats.raw = st.stats.total_files →
      (l.foldl (processFile set_name) st).stats.formatted
          + (l.foldl (processFile set_name) st).stats.raw
        = (l.foldl (processFile set_name) st).stats.total_files := by
  induction l with
  | nil => intro st h; exact h
  | cons f t ih =>
    intro st h
    simpa using ih (processFile set_name st f) (fr_inv_processFile set_name st f h)

lemma fr_inv_foldDirs (ds : List SetDir) :
    ∀ st : AuditState, st.stats.formatted + st.stats.raw = st.stats.total_files →
      (ds.foldl audit_directory st).stats.formatted
          + (ds.foldl audit_directory st).stats.raw
        = (ds.foldl audit_directory st).stats.total_files := by
  induction ds with
  | nil => intro st h; exact h
  | cons d t ih =>
    intro st h
    simpa using ih (audit_directory st d) (fr_inv_foldFiles d.name (txtSorted d) st h)

/-- C9.  After any run, the `formatted` counter plus the `raw` counter equals
`total_files`: every processed file, an empty one included, increments
exactly one of the two. -/
theorem spec_c9 (dirs : List SetDir) :
    (main_audit dirs).stats.formatted + (main_audit dirs).stats.raw
      = (main_audit dirs).stats.total_files :=
  fr_inv_foldDirs (scannedDirs dirs) initState rfl

/-- The single-directory input refuting the behaviour C1 ascribes to an
empty file: one set subdirectory holding one empty deck file. -/
def c1Tree : List SetDir := [⟨"SetA".toList, [⟨"Deck.txt".toList, []⟩]⟩]

/-- C1, counterexample.  On a tree holding exactly one deck file, an empty
one, the source counts the file and also increments the `raw` counter (the
claim asserts it increments neither `formatted` nor `raw`): `has_headers`
is `None` for an empty file, and `None` is falsy, so the `else` branch
`stats["raw"] += 1` runs. -/
theorem spec_c1_cex :
    (main_audit c1Tree).stats.total_files = 1
  ∧ (main_audit c1Tree).stats.formatted = 0
  ∧ (main_audit c1Tree).stats.raw = 1
  ∧ ¬ (main_audit c1Tree).stats.raw = 0 := by decide

/-- C1, amended.  Processing an empty deck file increments `total_files`,
reports it as an empty file (the entry `"<set>/<file>: Empty file"` is
appended to the deck-name issue list), leaves `formatted` unchanged, and
increments `raw`. -/
theorem spec_c1 (set_name : Str) (st : AuditState) (f : DeckFile) (h : f.lines = []) :
    (processFile set_name st f).stats.total_files = st.stats.total_files + 1
  ∧ (processFile set_name st f).stats.formatted = st.stats.formatted
  ∧ (processFile set_name st f).stats.raw = st.stats.raw + 1
  ∧ (processFile set_name st f).issues.deck_name
      = st.issues.deck_name ++ [fileEntry set_name f.name ("Empty file".toList)] := by
  refine ⟨processFile_total set_name st f, ?_, ?_, ?_⟩
  · rw [processFile_formatted, truthy_hasHeaders, h]
    simp [hasHeaderLine]
  · rw [processFile_raw, truthy_hasHeaders, h]
    simp [hasHeaderLine]
  · rw [processFile_deck_name]
    simp [deckNameAdd, h, check_deck_content, NameIssue.render]

/-- Witness for C1's amended theorem at a concrete empty file. -/
theorem spec_c1_w :
    (processFile ("SetA".toList) initState ⟨"Deck.txt".toList, []⟩).stats.total_files
        = initState.stats.total_files + 1
  ∧ (processFile ("SetA".toList) initState ⟨"Deck.txt".toList, []⟩).stats.formatted
        = initState.stats.formatted
  ∧ (processFile ("SetA".toList) initState ⟨"Deck.txt".toList, []⟩).stats.raw
        = initState.stats.raw + 1
  ∧ (processFile ("SetA".toList) initState ⟨"Deck.txt".toList, []⟩).issues.deck_name
      = initState.issues.deck_name
          ++ [fileEntry ("SetA".toList) ("Deck.txt".toList) ("Empty file".toList)] :=
  spec_c1 ("SetA".toList) initState ⟨"Deck.txt".toList, []⟩ rfl

lemma takeWhile_append_stop (p : Char → Bool) (l1 : Str) (x : Char) (l2 : Str)
    (h1 : ∀ c ∈ l1, p c = true) (h2 : p x = false) :
    (l1 ++ x :: l2).takeWhile p = l1 := by
  induction l1 with
  | nil => simp [List.takeWhile_cons, h2]
  | cons a t ih =>
    have ha : p a = true := h1 a (by simp)
    simp only [List.cons_append, List.takeWhile_cons, ha, if_true]
    rw [ih (fun c hc => h1 c (by simp [hc]))]

lemma replaceHyphens_append (a b : Str) :
    replaceHyphens (a ++ b) = replaceHyphens a ++ replaceHyphens b := by
  induction a with
  | nil => simp [replaceHyphens]
  | cons c t ih => simp [replaceHyphens, ih]

lemma replaceHyphens_id (a : Str) (h : ∀ c ∈ a, ¬ c = '-') :
    replaceHyphens a = a := by
  induction a with
  | nil => simp [replaceHyphens]
  | cons c t ih =>
    have hc : ¬ c = '-' := h c (by simp)
    simp only [replaceHyphens, if_neg hc, List.singleton_append]
    rw [ih (fun x hx => h x (by simp [hx]))]

lemma endsWithHyphenDigits_shape (pre d : Str) (hd : d ≠ [])
    (hdig : ∀ c ∈ d, c.isDigit = true) :
    endsWithHyphenDigits (pre ++ '-' :: d) = true := by
  have hrev : (pre ++ '-' :: d).reverse = d.reverse ++ '-' :: pre.reverse := by
    simp
  have htw : ((pre ++ '-' :: d).reverse).takeWhile Char.isDigit = d.reverse := by
    rw [hrev]
    exact takeWhile_append_stop _ _ _ _ (fun c hc => hdig c (List.mem_reverse.1 hc)) (by decide)
  have hdrop : ((pre ++ '-' :: d).reverse).drop d.reverse.length = '-' :: pre.reverse := by
    rw [hrev]; exact List.drop_left d.reverse ('-' :: pre.reverse)
  simp only [endsWithHyphenDigits, htw, hdrop]
  simp [hd]

/-- On any string of the missing-space shape, the hyphen-form regex fails
(the last character is a closing parenthesis, not a digit). -/
lemma endsWithHyphenDigits_of_head_not_digit (s : Str) (c : Char) (r : Str)
    (h : s.reverse = c :: r) (hc : c.isDigit = false) :
    endsWithHyphenDigits s = false := by
  simp [endsWithHyphenDigits, h, List.takeWhile_cons, hc]

lemma parenMatch_shape (pre : Str) (w : Char) (d : Str) (hd : d ≠ [])
    (hdig : ∀ c ∈ d, c.isDigit = true) :
    parenMatch (pre ++ w :: '(' :: (d ++ [')']))
      = if isWordChar w = true then some (pre ++ [w], d) else none := by
  have hrev : (pre ++ w :: '(' :: (d ++ [')'])).reverse
      = ')' :: (d.reverse ++ '(' :: w :: pre.reverse) := by
    simp
  have htw : (d.reverse ++ '(' :: w :: pre.reverse).takeWhile Char.isDigit = d.reverse :=
    takeWhile_append_stop _ _ _ _ (fun c hc => hdig c (List.mem_reverse.1 hc)) (by decide)
  have hdrop : (d.reverse ++ '(' :: w :: pre.reverse).drop d.reverse.length
      = '(' :: w :: pre.reverse := List.drop_left _ _
  rw [parenMatch.eq_def, hrev]
  simp only [htw, hdrop, if_true]
  by_cases hw : isWordChar w = true
  · simp [hd, hw]
  · simp [hd, hw]

/-- C2, counterexample.  For the stem `A-B-3` (a hyphen-digits stem whose
prefix holds another hyphen) the source flags the hyphen form, but the
suggestion it builds with `filename.replace("-", " (")` is `A (B (3)`,
not the space-parenthesis equivalent `A-B (3)` the claim demands. -/
theorem spec_c2_cex :
    check_filename_format ("A-B-3".toList)
        = some (.hyphenForm ("A (B (3)".toList))
  ∧ "A (B (3)".toList ≠ "A-B (3)".toList := by decide

/-- C2, amended.  Every stem of the form `<pre>-<digits>` is flagged by the
hyphen check, and the suggestion reported is the stem with each of its
hyphens replaced by space-parenthesis and a closing parenthesis appended;
when the trailing hyphen is the only hyphen of the stem, this is exactly
the space-parenthesis equivalent the claim describes. -/
theorem spec_c2 (pre d : Str) (hd : d ≠ []) (hdig : ∀ c ∈ d, c.isDigit = true) :
    check_filename_format (pre ++ '-' :: d)
      = some (.hyphenForm (replaceHyphens (pre ++ '-' :: d) ++ [')']))
  ∧ ('-' ∉ pre →
      replaceHyphens (pre ++ '-' :: d) ++ [')'] = pre ++ ' ' :: '(' :: (d ++ [')'])) := by
  constructor
  · simp [check_filename_format, endsWithHyphenDigits_shape pre d hd hdig]
  · intro hpre
    have h1 : replaceHyphens pre = pre :=
      replaceHyphens_id pre (fun c hc hc' => hpre (hc' ▸ hc))
    have h2 : replaceHyphens d = d := by
      refine replaceHyphens_id d (fun c hc hc' => ?_)
      have := hdig c hc
      rw [hc'] at this
      exact absurd this (by decide)
    rw [replaceHyphens_append, h1]
    simp [replaceHyphens, h2]

/-- Witness for C2's amended theorem at the stem `Deck-3`. -/
theorem spec_c2_w :
    check_filename_format ("Deck".toList ++ '-' :: "3".toList)
      = some (.hyphenForm (replaceHyphens ("Deck".toList ++ '-' :: "3".toList) ++ [')']))
  ∧ replaceHyphens ("Deck".toList ++ '-' :: "3".toList) ++ [')']
      = "Deck".toList ++ ' ' :: '(' :: ("3".toList ++ [')']) :=
  ⟨(spec_c2 ("Deck".toList) ("3".toList) (by decide) (by decide)).1,
   (spec_c2 ("Deck".toList) ("3".toList) (by decide) (by decide)).2 (by decide)⟩

/-- C6.  The two filename checks are mutually exclusive and exhaustive in the
reported sense: a stem ending in a word character directly followed by
`(<digits>)` is flagged with the space inserted before the parenthesis; a
stem ending in the correct ` (<digits>)` form yields no issue; a stem
matching neither regex yields no issue; and no stem matches both regexes. -/
theorem spec_c6 :
    (∀ (pre : Str) (w : Char) (d : Str), d ≠ [] → (∀ c ∈ d, c.isDigit = true) →
        isWordChar w = true →
        check_filename_format (pre ++ w :: '(' :: (d ++ [')']))
          = some (.missingSpace ((pre ++ [w]) ++ ' ' :: '(' :: (d ++ [')']))))
  ∧ (∀ (pre d : Str), d ≠ [] → (∀ c ∈ d, c.isDigit = true) →
        check_filename_format (pre ++ ' ' :: '(' :: (d ++ [')'])) = none)
  ∧ (∀ s : Str, endsWithHyphenDigits s = false → parenMatch s = none →
        check_filename_format s = none)
  ∧ (∀ s : Str, ¬(endsWithHyphenDigits s = true ∧ (parenMatch s).isSome = true)) := by
  refine ⟨?_, ?_, ?_, ?_⟩
  · intro pre w d hd hdig hw
    have hrev : (pre ++ w :: '(' :: (d ++ [')'])).reverse
        = ')' :: (d.reverse ++ '(' :: w :: pre.reverse) := by simp
    have hhy : endsWithHyphenDigits (pre ++ w :: '(' :: (d ++ [')'])) = false :=
      endsWithHyphenDigits_of_head_not_digit _ _ _ hrev (by decide)
    rw [check_filename_format, hhy, parenMatch_shape pre w d hd hdig]
    simp [hw]
  · intro pre d hd hdig
    have hrev : (pre ++ ' ' :: '(' :: (d ++ [')'])).reverse
        = ')' :: (d.reverse ++ '(' :: ' ' :: pre.reverse) := by simp
    have hhy : endsWithHyphenDigits (pre ++ ' ' :: '(' :: (d ++ [')'])) = false :=
      endsWithHyphenDigits_of_head_not_digit _ _ _ hrev (by decide)
    rw [check_filename_format, hhy, parenMatch_shape pre ' ' d hd hdig]
    simp [isWordChar]
  · intro s h1 h2
    simp [check_filename_format, h1, h2]
  · intro s ⟨h1, h2⟩
    cases hr : s.reverse with
    | nil => simp [endsWithHyphenDigits, hr] at h1
    | cons c r =>
      have hc : c.isDigit = true := by
        by_contra hnc
        have : c.isDigit = false := by
          cases hcd : c.isDigit
          · rfl
          · exact absurd hcd hnc
        rw [endsWithHyphenDigits_of_head_not_digit s c r hr this] at h1
        cases h1
      have hcp : ¬ c = ')' := by
        intro he
        rw [he] at hc
        exact absurd hc (by decide)
      rw [parenMatch.eq_def, hr] at h2
      simp [hcp] at h2

/-- Witness for C6 at the stems `AB(3)` (missing space) and `A (3)`
(correct form). -/
theorem spec_c6_w :
    check_filename_format ("A".toList ++ 'B' :: '(' :: ("3".toList ++ [')']))
      = some (.missingSpace (("A".toList ++ ['B']) ++ ' ' :: '(' :: ("3".toList ++ [')'])))
  ∧ check_filename_format ("A".toList ++ ' ' :: '(' :: ("3".toList ++ [')'])) = none :=
  ⟨spec_c6.1 ("A".toList) 'B' ("3".toList) (by decide) (by decide) (by decide),
   spec_c6.2.1 ("A".toList) ("3".toList) (by decide) (by decide)⟩

/-- C4.  For a non-empty deck file, exactly one deck-name-mismatch entry is
appended when and only when the stripped first line differs from the stem,
and the appended message contains both the declared deck name and the
expected stem. -/
theorem spec_c4 (set_name : Str) (st : AuditState) (f : DeckFile)
    (x : Str) (xs : List Str) (h : f.lines = x :: xs) :
    (processFile set_name st f).issues.deck_name
      = st.issues.deck_name
        ++ (if strip x = pathStem f.name then []
            else [fileEntry set_name f.name
                    (NameIssue.render (.mismatch (strip x) (pathStem f.name)))])
  ∧ (∃ u v, fileEntry set_name f.name
        (NameIssue.render (.mismatch (strip x) (pathStem f.name)))
      = u ++ strip x ++ v)
  ∧ (∃ u v, fileEntry set_name f.name
        (NameIssue.render (.mismatch (strip x) (pathStem f.name)))
      = u ++ pathStem f.name ++ v) := by
  refine ⟨?_, ?_, ?_⟩
  · rw [processFile_deck_name]
    by_cases he : strip x = pathStem f.name
    · simp [deckNameAdd, h, check_deck_content, he]
    · simp [deckNameAdd, h, check_deck_content, he]
  · refine ⟨set_name ++ '/' :: (f.name ++ ':' :: ' ' :: ("Deck name ".toList ++ [apos])), ?_, ?_⟩
    · exact apos :: " doesn".toList
        ++ apos :: ("t match filename ".toList ++ apos :: (pathStem f.name ++ [apos]))
    · simp [fileEntry, NameIssue.render]
  · refine ⟨set_name ++ '/' :: (f.name ++ ':' :: ' ' :: ("Deck name ".toList
        ++ apos :: (strip x ++ apos :: " doesn".toList
          ++ apos :: ("t match filename ".toList ++ [apos])))), [apos], ?_⟩
    simp [fileEntry, NameIssue.render]

/-- Witness for C4 at a concrete mismatching file. -/
theorem spec_c4_w :
    (processFile ("SetA".toList) initState ⟨"Deck.txt".toList, ["Other".toList]⟩).issues.deck_name
      = initState.issues.deck_name
        ++ (if strip ("Other".toList) = pathStem ("Deck.txt".toList) then []
            else [fileEntry ("SetA".toList) ("Deck.txt".toList)
                    (NameIssue.render (.mismatch (strip ("Other".toList))
                      (pathStem ("Deck.txt".toList))))]) :=
  (spec_c4 ("SetA".toList) initState ⟨"Deck.txt".toList, ["Other".toList]⟩
    ("Other".toList) [] rfl).1

lemma mem_pyRange (a b j : Nat) : j ∈ pyRange a b ↔ a ≤ j ∧ j < b := by
  rw [pyRange, List.mem_range'_1]
  omega

/-- C3.  A pair is produced by the unknown-card scan exactly when some line
(at 0-based index `k`), stripped, starts with `//Unknown`, and the pair
records a line of the following window of at most 10 lines (0-based index
`j`, so `k + 1 ≤ j < min (k+1+10) n`) whose stripped text is non-empty, is
not itself a `//` header, and whose lowercased text contains neither
`random` nor `rare`; the recorded data are the 1-based line number `j + 1`
and the stripped text. -/
theorem spec_c3 (lines : List Str) (num : Nat) (card : Str) :
    (num, card) ∈ findUnknowns lines ↔
      ∃ k j : Nat, k < lines.length
        ∧ isPre "//Unknown".toList (strip (lines.getD k [])) = true
        ∧ k + 1 ≤ j ∧ j < min (k + 1 + 10) lines.length
        ∧ num = j + 1 ∧ card = strip (lines.getD j [])
        ∧ (strip (lines.getD j [])).isEmpty = false
        ∧ isPre "//".toList (strip (lines.getD j [])) = false
        ∧ strContains "random".toList (lowerStr (strip (lines.getD j []))) = false
        ∧ strContains "rare".toList (lowerStr (strip (lines.getD j []))) = false := by
  constructor
  · intro hm
    rcases List.mem_flatten.1 hm with ⟨L, hL, hpL⟩
    rcases List.mem_map.1 hL with ⟨k, hk, hLk⟩
    have hk' : k < lines.length := ((mem_pyRange 0 lines.length k).1 hk).2
    by_cases hh : isPre "//Unknown".toList (strip (lines.getD k [])) = true
    · rw [if_pos hh] at hLk
      rw [← hLk] at hpL
      rcases List.mem_filterMap.1 hpL with ⟨j, hj, hjs⟩
      have hjb := (mem_pyRange (k + 1) (min (k + 1 + 10) lines.length) j).1 hj
      by_cases hf : flagUnknown (strip (lines.getD j [])) = true
      · rw [if_pos hf] at hjs
        simp only [Option.some.injEq, Prod.mk.injEq] at hjs
        have hfc := hf
        simp only [flagUnknown, Bool.and_eq_true, Bool.not_eq_true'] at hfc
        exact ⟨k, j, hk', hh, hjb.1, hjb.2, hjs.1.symm, hjs.2.symm,
          hfc.1.1.1, hfc.1.1.2, hfc.1.2, hfc.2⟩
      · rw [if_neg hf] at hjs
        cases hjs
    · rw [if_neg hh] at hLk
      rw [← hLk] at hpL
      cases hpL
  · rintro ⟨k, j, hk, hh, hj1, hj2, hnum, hcard, h1, h2, h3, h4⟩
    have hf : flagUnknown (strip (lines.getD j [])) = true := by
      simp only [flagUnknown, Bool.and_eq_true, Bool.not_eq_true']
      exact ⟨⟨⟨h1, h2⟩, h3⟩, h4⟩
    apply List.mem_flatten.2
    refine ⟨unknownWindow lines (k + 1), List.mem_map.2 ⟨k, ?_, by rw [if_pos hh]⟩, ?_⟩
    · exact (mem_pyRange 0 lines.length k).2 ⟨Nat.zero_le k, hk⟩
    · apply List.mem_filterMap.2
      refine ⟨j, (mem_pyRange (k + 1) (min (k + 1 + 10) lines.length) j).2 ⟨hj1, hj2⟩, ?_⟩
      show (if flagUnknown (strip (lines.getD j [])) = true
              then some (j + 1, strip (lines.getD j [])) else none) = some (num, card)
      rw [if_pos hf, hnum, hcard]

lemma strLe_total : ∀ a b : Str, strLe a b = true ∨ strLe b a = true
  | [], _ => .inl rfl
  | _ :: _, [] => .inr rfl
  | a :: as, b :: bs => by
    by_cases h1 : a.toNat < b.toNat
    · left
      simp [strLe, h1]
    · by_cases h2 : b.toNat < a.toNat
      · right
        simp [strLe, h2, h1]
      · rcases strLe_total as bs with h | h
        · left
          simp [strLe, h1, h2, h]
        · right
          simp [strLe, h1, h2, h]

lemma strLe_trans : ∀ a b c : Str, strLe a b = true → strLe b c = true → strLe a c = true
  | [], _, _ => fun _ _ => rfl
  | _ :: _, [], _ => fun h _ => by simp [strLe] at h
  | _ :: _, _ :: _, [] => fun _ h => by simp [strLe] at h
  | a :: as, b :: bs, c :: cs => by
    intro h1 h2
    simp only [strLe] at h1 h2 ⊢
    by_cases hab : a.toNat < b.toNat <;> by_cases hbc : b.toNat < c.toNat
    · have : a.toNat < c.toNat := Nat.lt_trans hab hbc
      simp [this]
    · simp only [hbc, if_false] at h2
      by_cases hcb : c.toNat < b.toNat
      · simp [hcb] at h2
      · have hbeq : b.toNat = c.toNat := by omega
        have : a.toNat < c.toNat := hbeq ▸ hab
        simp [this]
    · simp only [hab, if_false] at h1
      by_cases hba : b.toNat < a.toNat
      · simp [hba] at h1
      · have haeq : a.toNat = b.toNat := by omega
        have : a.toNat < c.toNat := haeq ▸ hbc
        simp [this]
    · simp only [hab, if_false] at h1
      simp only [hbc, if_false] at h2
      by_cases hba : b.toNat < a.toNat
      · simp [hba] at h1
      · by_cases hcb : c.toNat < b.toNat
        · simp [hcb] at h2
        · have hac : ¬ a.toNat < c.toNat := by omega
          have hca : ¬ c.toNat < a.toNat := by omega
          simp only [hba, if_false] at h1
          simp only [hcb, if_false] at h2
          simp [hac, hca, strLe_trans as bs cs h1 h2]

lemma mem_insertB (le : α → α → Bool) (a x : α) :
    ∀ l : List α, x ∈ insertB le a l ↔ x = a ∨ x ∈ l := by
  intro l
  induction l with
  | nil => simp [insertB]
  | cons b t ih =>
    by_cases h : le a b = true
    · simp [insertB, h]
    · simp [insertB, h, ih]
      tauto

lemma insertB_perm (le : α → α → Bool) (a : α) :
    ∀ l : List α, (insertB le a l).Perm (a :: l) := by
  intro l
  induction l with
  | nil => simp [insertB]
  | cons b t ih =>
    by_cases h : le a b = true
    · simp [insertB, h]
    · simp only [insertB, h, if_false]
      exact (ih.cons b).trans (List.Perm.swap a b t)

lemma sortB_perm (le : α → α → Bool) : ∀ l : List α, (sortB le l).Perm l := by
  intro l
  induction l with
  | nil => simp [sortB]
  | cons a t ih => exact (insertB_perm le a (sortB le t)).trans (ih.cons a)

lemma pairwise_insertB (le : α → α → Bool)
    (htot : ∀ x y, le x y = true ∨ le y x = true)
    (htr : ∀ x y z, le x y = true → le y z = true → le x z = true)
    (a : α) : ∀ l : List α, l.Pairwise (fun x y => le x y = true) →
      (insertB le a l).Pairwise (fun x y => le x y = true) := by
  intro l
  induction l with
  | nil => simp [insertB]
  | cons b t ih =>
    intro hp
    rcases List.pairwise_cons.1 hp with ⟨hb, ht⟩
    by_cases h : le a b = true
    · rw [insertB, if_pos h]
      refine List.pairwise_cons.2 ⟨?_, hp⟩
      intro x hx
      rcases List.mem_cons.1 hx with rfl | hx
      · exact h
      · exact htr a b x h (hb x hx)
    · rw [insertB, if_neg h]
      refine List.pairwise_cons.2 ⟨?_, ih ht⟩
      intro x hx
      rcases (mem_insertB le a x t).1 hx with rfl | hx
      · rcases htot x b with h' | h'
        · exact absurd h' h
        · exact h'
      · exact hb x hx

lemma pairwise_sortB (le : α → α → Bool)
    (htot : ∀ x y, le x y = true ∨ le y x = true)
    (htr : ∀ x y z, le x y = true → le y z = true → le x z = true) :
    ∀ l : List α, (sortB le l).Pairwise (fun x y => le x y = true) := by
  intro l
  induction l with
  | nil => simp [sortB]
  | cons a t ih => exact pairwise_insertB le htot htr a (sortB le t) ih

lemma insertB_front (le : α → α → Bool) (a : α) (l : List α)
    (h : ∀ b ∈ l, le a b = true) : insertB le a l = a :: l := by
  cases l with
  | nil => rfl
  | cons b t => rw [insertB, if_pos (h b (by simp))]

lemma filter_insertB (le : α → α → Bool)
    (htr : ∀ x y z, le x y = true → le y z = true → le x z = true)
    (p : α → Bool) (a : α) :
    ∀ l : List α, l.Pairwise (fun x y => le x y = true) →
      (insertB le a l).filter p
        = if p a = true then insertB le a (l.filter p) else l.filter p := by
  intro l
  induction l with
  | nil =>
    simp only [insertB, List.filter_nil]
    by_cases hpa : p a = true <;> simp [List.filter, hpa, insertB]
  | cons b t ih =>
    intro hp
    rcases List.pairwise_cons.1 hp with ⟨hb, ht⟩
    by_cases h : le a b = true
    · rw [insertB, if_pos h]
      by_cases hpa : p a = true
      · rw [List.filter_cons_of_pos hpa, if_pos hpa]
        rw [insertB_front le a ((b :: t).filter p)]
        intro x hx
        rcases List.mem_filter.1 hx with ⟨hx', _⟩
        rcases List.mem_cons.1 hx' with rfl | hx''
        · exact h
        · exact htr a b x h (hb x hx'')
      · rw [List.filter_cons_of_neg hpa, if_neg hpa]
    · rw [insertB, if_neg h]
      by_cases hpb : p b = true
      · rw [List.filter_cons_of_pos hpb, List.filter_cons_of_pos hpb, ih ht]
        by_cases hpa : p a = true
        · rw [if_pos hpa, if_pos hpa, insertB, if_neg h]
        · rw [if_neg hpa, if_neg hpa]
      · rw [List.filter_cons_of_neg hpb, List.filter_cons_of_neg hpb, ih ht]

lemma filter_idem (p : α → Bool) : ∀ l : List α, (l.filter p).filter p = l.filter p := by
  intro l
  induction l with
  | nil => rfl
  | cons a t ih =>
    by_cases h : p a = true
    · rw [List.filter_cons_of_pos h, List.filter_cons_of_pos h, ih]
    · rw [List.filter_cons_of_neg h, ih]

lemma sortB_filter (le : α → α → Bool)
    (htot : ∀ x y, le x y = true ∨ le y x = true)
    (htr : ∀ x y z, le x y = true → le y z = true → le x z = true)
    (p : α → Bool) : ∀ l : List α, (sortB le l).filter p = sortB le (l.filter p) := by
  intro l
  induction l with
  | nil => rfl
  | cons a t ih =>
    rw [sortB, filter_insertB le htr p a (sortB le t) (pairwise_sortB le htot htr t), ih]
    by_cases hpa : p a = true
    · rw [if_pos hpa, List.filter_cons_of_pos hpa, sortB]
    · rw [if_neg hpa, List.filter_cons_of_neg hpa]

lemma dirLe_total : ∀ x y : SetDir, strLe x.name y.name = true ∨ strLe y.name x.name = true :=
  fun x y => strLe_total x.name y.name

lemma dirLe_trans : ∀ x y z : SetDir,
    strLe x.name y.name = true → strLe y.name z.name = true → strLe x.name z.name = true :=
  fun x y z => strLe_trans x.name y.name z.name

lemma fileLe_total : ∀ x y : DeckFile, strLe x.name y.name = true ∨ strLe y.name x.name = true :=
  fun x y => strLe_total x.name y.name

lemma fileLe_trans : ∀ x y z : DeckFile,
    strLe x.name y.name = true → strLe y.name z.name = true → strLe x.name z.name = true :=
  fun x y z => strLe_trans x.name y.name z.name

lemma scannedDirs_filter (dirs : List SetDir) :
    scannedDirs (dirs.filter keepDir) = scannedDirs dirs := by
  unfold scannedDirs
  rw [sortB_filter _ dirLe_total dirLe_trans keepDir dirs,
    sortB_filter _ dirLe_total dirLe_trans keepDir (dirs.filter keepDir),
    filter_idem]

/-- C8.  The set subdirectories are scanned in lexical name order; inside
each scanned subdirectory the `.txt` files are processed in lexical
filename order; no scanned subdirectory is the tooling directory
`parsing-scripts`; and removing every `parsing-scripts` entry from the
input tree leaves the entire audit state unchanged, i.e. that directory
contributes to no statistic and no issue list. -/
theorem spec_c8 (dirs : List SetDir) :
    List.Pairwise (fun a b => strLe a b = true) ((scannedDirs dirs).map SetDir.name)
  ∧ (∀ d : SetDir, List.Pairwise (fun a b => strLe a b = true)
      ((txtSorted d).map DeckFile.name))
  ∧ (∀ d ∈ scannedDirs dirs, ¬ d.name = psName)
  ∧ main_audit dirs = main_audit (dirs.filter keepDir) := by
  refine ⟨?_, ?_, ?_, ?_⟩
  · apply List.pairwise_map.2
    exact List.Pairwise.sublist (List.filter_sublist _)
      (pairwise_sortB _ dirLe_total dirLe_trans dirs)
  · intro d
    apply List.pairwise_map.2
    unfold txtSorted
    exact pairwise_sortB (fun f1 f2 : DeckFile => strLe f1.name f2.name)
      fileLe_total fileLe_trans _
  · intro d hd
    have := (List.mem_filter.1 hd).2
    simpa [keepDir] using this
  · unfold main_audit
    rw [scannedDirs_filter]

/-- Witness for C8 at a concrete one-directory tree. -/
theorem spec_c8_w : ¬ (SetDir.mk ("SetA".toList) []).name = psName :=
  (spec_c8 [⟨"SetA".toList, []⟩]).2.2.1 ⟨"SetA".toList, []⟩ (by decide)

lemma ne_of_headD {x y : Str} (d a b : Char) (hx : x.headD d = a) (hy : y.headD d = b)
    (hab : ¬ a = b) : ¬ x = y := by
  intro he
  rw [he, hy] at hx
  exact hab hx.symm

lemma notMem_issueBlock (x t : Str) (items : List Str)
    (h1 : ¬ x = t) (h2 : ∀ y : Str, ¬ x = indentLine y) (h3 : ¬ x = ([] : Str)) :
    x ∉ issueBlock t items := by
  unfold issueBlock
  by_cases h : items.isEmpty
  · simp [h]
  · rw [if_neg h]
    intro hm
    rcases List.mem_cons.1 hm with he | hm
    · exact h1 he
    · rcases List.mem_append.1 hm with hm | hm
      · rcases List.mem_map.1 hm with ⟨y, _, hy⟩
        exact h2 y hy.symm
      · rw [List.mem_singleton] at hm
        exact h3 hm

lemma notMem_confirmPart (x : Str) (i : Issues) (h : ¬ x = okLine) :
    x ∉ confirmPart i := by
  unfold confirmPart
  intro hm
  by_cases hc : (i.filename.isEmpty && i.deck_name.isEmpty && i.unknown.isEmpty) = true
  · rw [if_pos hc, List.mem_singleton] at hm
    exact h hm
  · rw [if_neg hc] at hm
    exact List.not_mem_nil x hm

lemma notMem_reportHead (x : Str) (s : Stats)
    (h1 : ¬ x = auditHeader) (h2 : ¬ x = ([] : Str))
    (h3 : ∀ n, ¬ x = totalLine n) (h4 : ∀ n, ¬ x = formattedLine n)
    (h5 : ∀ n, ¬ x = rawLine n) (h6 : ∀ n, ¬ x = badLine n)
    (h7 : ∀ n, ¬ x = unknownLine n) : x ∉ reportHead s := by
  intro hm
  unfold reportHead at hm
  simp only [List.mem_cons] at hm
  rcases hm with h | h | h | h | h | h | h | h | h
  · exact h1 h
  · exact h2 h
  · exact h3 _ h
  · exact h4 _ h
  · exact h5 _ h
  · exact h6 _ h
  · exact h7 _ h
  · exact h2 h
  · exact List.not_mem_nil x h

lemma okLine_notMem_reportHead (s : Stats) : okLine ∉ reportHead s := by
  refine notMem_reportHead okLine s (by decide) (by decide) ?_ ?_ ?_ ?_ ?_ <;>
    intro n
  · exact ne_of_headD ' ' '✓' 'T' rfl rfl (by decide)
  · exact ne_of_headD ' ' '✓' 'F' rfl rfl (by decide)
  · exact ne_of_headD ' ' '✓' 'R' rfl rfl (by decide)
  · exact ne_of_headD ' ' '✓' 'B' rfl rfl (by decide)
  · exact ne_of_headD ' ' '✓' 'U' rfl rfl (by decide)

lemma okLine_mem_confirmPart (i : Issues) :
    okLine ∈ confirmPart i ↔ (i.filename = [] ∧ i.deck_name = [] ∧ i.unknown = []) := by
  unfold confirmPart
  by_cases h1 : i.filename = [] <;> by_cases h2 : i.deck_name = [] <;>
    by_cases h3 : i.unknown = [] <;>
    simp [h1, h2, h3]

lemma okLine_mem_report_iff (s : Stats) (i : Issues) :
    okLine ∈ report s i ↔ (i.filename = [] ∧ i.deck_name = [] ∧ i.unknown = []) := by
  constructor
  · intro h
    unfold report at h
    simp only [List.mem_append] at h
    rcases h with (((h | h) | h) | h) | h
    · exact absurd h (okLine_notMem_reportHead s)
    · exact absurd h (notMem_issueBlock okLine fnTitle i.filename (by decide)
        (fun y => ne_of_headD 'x' '✓' ' ' rfl rfl (by decide)) (by decide))
    · exact absurd h (notMem_issueBlock okLine dnTitle i.deck_name (by decide)
        (fun y => ne_of_headD 'x' '✓' ' ' rfl rfl (by decide)) (by decide))
    · exact absurd h (notMem_issueBlock okLine unTitle i.unknown (by decide)
        (fun y => ne_of_headD 'x' '✓' ' ' rfl rfl (by decide)) (by decide))
    · exact (okLine_mem_confirmPart i).1 h
  · intro h
    unfold report
    exact List.mem_append_right _ ((okLine_mem_confirmPart i).2 h)

lemma title_mem_issueBlock (t : Str) (items : List Str) (h : ¬ items = []) :
    t ∈ issueBlock t items := by
  unfold issueBlock
  rw [if_neg (by simpa [List.isEmpty_iff] using h)]
  exact List.mem_cons_self t _

lemma title_notMem_reportHead (t : Str) (s : Stats) (hh : t.headD ' ' = '=')
    (ha : ¬ t = auditHeader) : t ∉ reportHead s := by
  refine notMem_reportHead t s ha ?_ ?_ ?_ ?_ ?_ ?_
  · intro he
    rw [he] at hh
    exact absurd hh (by decide)
  · exact fun n => ne_of_headD ' ' '=' 'T' hh rfl (by decide)
  · exact fun n => ne_of_headD ' ' '=' 'F' hh rfl (by decide)
  · exact fun n => ne_of_headD ' ' '=' 'R' hh rfl (by decide)
  · exact fun n => ne_of_headD ' ' '=' 'B' hh rfl (by decide)
  · exact fun n => ne_of_headD ' ' '=' 'U' hh rfl (by decide)

lemma fnTitle_mem_report_iff (s : Stats) (i : Issues) :
    fnTitle ∈ report s i ↔ ¬ i.filename = [] := by
  constructor
  · intro h he
    unfold report at h
    rw [he] at h
    simp only [List.mem_append] at h
    rcases h with (((h | h) | h) | h) | h
    · exact absurd h (title_notMem_reportHead fnTitle s rfl (by decide))
    · simp [issueBlock] at h
    · exact absurd h (notMem_issueBlock fnTitle dnTitle i.deck_name (by decide)
        (fun y => ne_of_headD 'x' '=' ' ' rfl rfl (by decide)) (by decide))
    · exact absurd h (notMem_issueBlock fnTitle unTitle i.unknown (by decide)
        (fun y => ne_of_headD 'x' '=' ' ' rfl rfl (by decide)) (by decide))
    · exact absurd h (notMem_confirmPart fnTitle i (by decide))
  · intro h
    unfold report
    exact List.mem_append_left _ (List.mem_append_left _ (List.mem_append_left _
      (List.mem_append_right _ (title_mem_issueBlock fnTitle i.filename h))))

lemma dnTitle_mem_report_iff (s : Stats) (i : Issues) :
    dnTitle ∈ report s i ↔ ¬ i.deck_name = [] := by
  constructor
  · intro h he
    unfold report at h
    rw [he] at h
    simp only [List.mem_append] at h
    rcases h with (((h | h) | h) | h) | h
    · exact absurd h (title_notMem_reportHead dnTitle s rfl (by decide))
    · exact absurd h (notMem_issueBlock dnTitle fnTitle i.filename (by decide)
        (fun y => ne_of_headD 'x' '=' ' ' rfl rfl (by decide)) (by decide))
    · simp [issueBlock] at h
    · exact absurd h (notMem_issueBlock dnTitle unTitle i.unknown (by decide)
        (fun y => ne_of_headD 'x' '=' ' ' rfl rfl (by decide)) (by decide))
    · exact absurd h (notMem_confirmPart dnTitle i (by decide))
  · intro h
    unfold report
    exact List.mem_append_left _ (List.mem_append_left _ (List.mem_append_right _
      (title_mem_issueBlock dnTitle i.deck_name h)))

lemma unTitle_mem_report_iff (s : Stats) (i : Issues) :
    unTitle ∈ report s i ↔ ¬ i.unknown = [] := by
  constructor
  · intro h he
    unfold report at h
    rw [he] at h
    simp only [List.mem_append] at h
    rcases h with (((h | h) | h) | h) | h
    · exact absurd h (title_notMem_reportHead unTitle s rfl (by decide))
    · exact absurd h (notMem_issueBlock unTitle fnTitle i.filename (by decide)
        (fun y => ne_of_headD 'x' '=' ' ' rfl rfl (by decide)) (by decide))
    · exact absurd h (notMem_issueBlock unTitle dnTitle i.deck_name (by decide)
        (fun y => ne_of_headD 'x' '=' ' ' rfl rfl (by decide)) (by decide))
    · simp [issueBlock] at h
    · exact absurd h (notMem_confirmPart unTitle i (by decide))
  · intro h
    unfold report
    exact List.mem_append_left _ (List.mem_append_right _
      (title_mem_issueBlock unTitle i.unknown h))

/-- C7.  The report has a fixed order: its first eight lines are always the
header, a blank line, and the five statistics lines followed by a blank
line; each issue category contributes its titled block exactly when it is
non-empty; the confirmation line appears exactly when every category is
empty; and in that case the whole report is the fixed head followed by the
single confirmation line, with no category block. -/
theorem spec_c7 (s : Stats) (i : Issues) :
    (report s i).take 8 = reportHead s
  ∧ (okLine ∈ report s i ↔ (i.filename = [] ∧ i.deck_name = [] ∧ i.unknown = []))
  ∧ (fnTitle ∈ report s i ↔ ¬ i.filename = [])
  ∧ (dnTitle ∈ report s i ↔ ¬ i.deck_name = [])
  ∧ (unTitle ∈ report s i ↔ ¬ i.unknown = [])
  ∧ (i.filename = [] → i.deck_name = [] → i.unknown = [] →
      report s i = reportHead s ++ [okLine]) := by
  refine ⟨?_, okLine_mem_report_iff s i, fnTitle_mem_report_iff s i,
    dnTitle_mem_report_iff s i, unTitle_mem_report_iff s i, ?_⟩
  · have hr : report s i
        = reportHead s ++ (issueBlock fnTitle i.filename ++ (issueBlock dnTitle i.deck_name
            ++ (issueBlock unTitle i.unknown ++ confirmPart i))) := by
      simp [report, List.append_assoc]
    rw [hr]
    have h8 : (reportHead s).length = 8 := rfl
    rw [← h8]
    exact List.take_left _ _
  · intro h1 h2 h3
    simp [report, issueBlock, confirmPart, h1, h2, h3]

/-- Witness for C7 on an issue-free run. -/
theorem spec_c7_w :
    report ⟨2, 1, 1, 0, 0⟩ ⟨[], [], []⟩ = reportHead ⟨2, 1, 1, 0, 0⟩ ++ [okLine] :=
  (spec_c7 ⟨2, 1, 1, 0, 0⟩ ⟨[], [], []⟩).2.2.2.2.2 rfl rfl rfl

lemma deckNameAdd_empty (set_name : Str) (f : DeckFile) (h : f.lines = []) :
    deckNameAdd set_name f = [fileEntry set_name f.name ("Empty file".toList)] := by
  simp [deckNameAdd, h, check_deck_content, NameIssue.render]

lemma mem_deck_foldFiles (set_name : Str) (e : Str) (l : List DeckFile) :
    ∀ st : AuditState, e ∈ st.issues.deck_name →
      e ∈ (l.foldl (processFile set_name) st).issues.deck_name := by
  induction l with
  | nil => intro st h; exact h
  | cons f t ih =>
    intro st h
    exact ih (processFile set_name st f)
      (by rw [processFile_deck_name]; exact List.mem_append_left _ h)

lemma mem_deck_foldDirs (e : Str) (ds : List SetDir) :
    ∀ st : AuditState, e ∈ st.issues.deck_name →
      e ∈ (ds.foldl audit_directory st).issues.deck_name := by
  induction ds with
  | nil => intro st h; exact h
  | cons d t ih =>
    intro st h
    exact ih (audit_directory st d) (mem_deck_foldFiles d.name e (txtSorted d) st h)

lemma mem_deck_main (dirs : List SetDir) (d : SetDir) (f : DeckFile)
    (hd : d ∈ dirs) (hname : ¬ d.name = psName) (hf : f ∈ d.files)
    (htxt : endsTxt f.name = true) (hlines : f.lines = []) :
    fileEntry d.name f.name ("Empty file".toList) ∈ (main_audit dirs).issues.deck_name := by
  have hd1 : d ∈ scannedDirs dirs := by
    refine List.mem_filter.2 ⟨?_, ?_⟩
    · exact (sortB_perm _ dirs).mem_iff.2 hd
    · simp [keepDir, hname]
  rcases List.append_of_mem hd1 with ⟨l1, l2, hsplit⟩
  have hf1 : f ∈ txtSorted d := by
    refine (sortB_perm _ _).mem_iff.2 (List.mem_filter.2 ⟨hf, htxt⟩)
  rcases List.append_of_mem hf1 with ⟨m1, m2, hfsplit⟩
  unfold main_audit
  rw [hsplit, List.foldl_append]
  simp only [List.foldl_cons]
  apply mem_deck_foldDirs
  unfold audit_directory
  rw [hfsplit, List.foldl_append]
  simp only [List.foldl_cons]
  apply mem_deck_foldFiles
  rw [processFile_deck_name, deckNameAdd_empty d.name f hlines]
  exact List.mem_append_right _ (List.mem_singleton.2 rfl)

/-- C10.  An empty deck file in any scanned set subdirectory yields an entry
ending in `Empty file` in the deck-name issue list (there is no separate
empty-file category); the report then shows the deck-name-mismatches block
holding that list's indented entries, and the confirmation line is absent. -/
theorem spec_c10 (dirs : List SetDir) (d : SetDir) (f : DeckFile)
    (hd : d ∈ dirs) (hname : ¬ d.name = psName) (hf : f ∈ d.files)
    (htxt : endsTxt f.name = true) (hlines : f.lines = []) :
    ∃ e, e ∈ (main_audit dirs).issues.deck_name
      ∧ (∃ u, e = u ++ "Empty file".toList)
      ∧ (∃ p q, report (main_audit dirs).stats (main_audit dirs).issues
          = p ++ dnTitle :: ((main_audit dirs).issues.deck_name.map indentLine
              ++ ([] : Str) :: q))
      ∧ okLine ∉ report (main_audit dirs).stats (main_audit dirs).issues := by
  have hmem := mem_deck_main dirs d f hd hname hf htxt hlines
  have hne : ¬ (main_audit dirs).issues.deck_name = [] := by
    intro he
    rw [he] at hmem
    exact List.not_mem_nil _ hmem
  refine ⟨fileEntry d.name f.name ("Empty file".toList), hmem, ?_, ?_, ?_⟩
  · refine ⟨d.name ++ '/' :: (f.name ++ [':', ' ']), ?_⟩
    simp [fileEntry]
  · refine ⟨reportHead (main_audit dirs).stats
        ++ issueBlock fnTitle (main_audit dirs).issues.filename,
      issueBlock unTitle (main_audit dirs).issues.unknown
        ++ confirmPart (main_audit dirs).issues, ?_⟩
    have hbd : issueBlock dnTitle (main_audit dirs).issues.deck_name
        = dnTitle :: ((main_audit dirs).issues.deck_name.map indentLine ++ [([] : Str)]) := by
      unfold issueBlock
      rw [if_neg (by simpa [List.isEmpty_iff] using hne)]
    rw [report, hbd]
    simp [List.append_assoc]
  · intro hok
    exact hne ((okLine_mem_report_iff _ _).1 hok).2.1

/-- Witness for C10 at a concrete one-directory tree with one empty file. -/
theorem spec_c10_w :
    ∃ e, e ∈ (main_audit [⟨"SetB".toList, [⟨"Empty.txt".toList, []⟩]⟩]).issues.deck_name
      ∧ (∃ u, e = u ++ "Empty file".toList)
      ∧ (∃ p q, report (main_audit [⟨"SetB".toList, [⟨"Empty.txt".toList, []⟩]⟩]).stats
            (main_audit [⟨"SetB".toList, [⟨"Empty.txt".toList, []⟩]⟩]).issues
          = p ++ dnTitle
              :: ((main_audit [⟨"SetB".toList,
                    [⟨"Empty.txt".toList, []⟩]⟩]).issues.deck_name.map indentLine
                  ++ ([] : Str) :: q))
      ∧ okLine ∉ report (main_audit [⟨"SetB".toList, [⟨"Empty.txt".toList, []⟩]⟩]).stats
          (main_audit [⟨"SetB".toList, [⟨"Empty.txt".toList, []⟩]⟩]).issues :=
  spec_c10 [⟨"SetB".toList, [⟨"Empty.txt".toList, []⟩]⟩]
    ⟨"SetB".toList, [⟨"Empty.txt".toList, []⟩]⟩ ⟨"Empty.txt".toList, []⟩
    (by decide) (by decide) (by decide) (by decide) rfl
